import Mathlib

/-!
Verification of the brief-to-plan derivation pipeline of the
ClaudeCode-DevPlanBuilder repository.

The Lean definitions below are shallow embeddings of the Python source:

* `claude_planner/generator/parser.py`       — markdown section scanner and field helpers
* `claude_planner/generator/brief_extractor.py` — field extractors
* `claude_planner/generator/brief_converter.py` — Brief assembly and validation
* `claude_planner/generator/tech_stack_gen.py`  — tech-stack derivation
* `claude_planner/generator/phase_gen.py`       — phase derivation
* `claude_planner/generator/plan_generator.py`  — plan orchestration
* `claude_planner/models.py`                    — data model and plan validation

Python strings are modelled as `String` (operating on the underlying
`List Char`), Python dicts as insertion-ordered association lists, Python
sets as lists with membership semantics, and raising functions as
`Except String`.  The concrete regular expressions of the source are
modelled by equivalent deterministic character-list scanners.  The
template-configuration loading (a YAML file read) is modelled by passing
the loaded configuration record as an explicit argument.
-/

namespace DevPlan

/-- Whitespace class of Python's regex `\s` and of `str.strip` for ASCII input:
space, tab, newline, carriage return, vertical tab, form feed. -/
def isPyWs (c : Char) : Bool :=
  c = ' ' || c = '\t' || c = '\n' || c = '\r' || c = Char.ofNat 11 || c = Char.ofNat 12

/-- Strip leading and trailing whitespace from a character list (Python `str.strip`). -/
def stripChars (l : List Char) : List Char :=
  ((l.dropWhile isPyWs).reverse.dropWhile isPyWs).reverse

/-- Python `str.strip()` on strings. -/
def pyStrip (s : String) : String :=
  String.mk (stripChars s.data)

/-- Python `str.lower()` restricted to ASCII, as used on technology names. -/
def pyLower (s : String) : String :=
  String.mk (s.data.map Char.toLower)

/-- Split a character list at every occurrence of the separator character,
matching Python `str.split(sep)` for a one-character separator
(always returns at least one piece; empty pieces are kept). -/
def splitChar (sep : Char) : List Char → List (List Char)
  | [] => [[]]
  | a :: rest =>
    match splitChar sep rest with
    | [] => if a = sep then [[], []] else [[a]]
    | h :: t => if a = sep then [] :: h :: t else (a :: h) :: t

/-- Python `text.split("\n")` producing the list of lines. -/
def pyLines (s : String) : List String :=
  (splitChar '\n' s.data).map String.mk

/-- Python `"\n".join(lines)`. -/
def joinNl : List String → String
  | [] => ""
  | [x] => x
  | x :: xs => x ++ "\n" ++ joinNl xs

/-- Python `sep.join(items)` for a general separator. -/
def joinSep (sep : String) : List String → String
  | [] => ""
  | [x] => x
  | x :: xs => x ++ sep ++ joinSep sep xs

/-- Match a literal pattern case-insensitively against the front of a
character list, returning the remaining characters (the behaviour of a
`re.escape`d literal under `re.IGNORECASE` for ASCII input). -/
def dropLitCI : List Char → List Char → Option (List Char)
  | [], l => some l
  | _ :: _, [] => none
  | p :: ps, a :: rest => if p.toLower = a.toLower then dropLitCI ps rest else none

/-- Substring test on character lists (Python `in` on strings). -/
def listContains : List Char → List Char → Bool
  | [], sub => sub.isEmpty
  | a :: t, sub => sub.isPrefixOf (a :: t) || listContains t sub

/-- Python `sub in s` for strings. -/
def strContains (s sub : String) : Bool :=
  listContains s.data sub.data

/-!  Embedding of `claude_planner/generator/parser.py`. -/

/-- Match one (already stripped) line against the field-line regular
expression of `extract_field_value`,
`^-?\s*\*\*FieldName\*\*:\s*(.+)$` compiled with `re.IGNORECASE`,
returning the contents of the capture group.  The pattern is a chain of
literals with disjoint first characters, so the deterministic scan below
has exactly the regex's backtracking semantics; the capture group is
nonempty and, on a stripped line, never starts with whitespace. -/
def matchFieldLine (field : String) (line : List Char) : Option (List Char) :=
  let afterDash := match line with
    | '-' :: r => r
    | r => r
  let afterWs := afterDash.dropWhile isPyWs
  match dropLitCI ['*', '*'] afterWs with
  | none => none
  | some l1 =>
    match dropLitCI field.data l1 with
    | none => none
    | some l2 =>
      match dropLitCI ['*', '*', ':'] l2 with
      | none => none
      | some l3 =>
        let v := l3.dropWhile isPyWs
        if v.isEmpty then none else some v

/-- The checkbox removal `re.sub(r"^\[[ x]\]\s*", "", value)` of
`extract_field_value`.  The substitution is compiled without
`re.IGNORECASE`, so only a lowercase `x` (or a space) inside the brackets
is recognised. -/
def stripCheckboxToken (v : List Char) : List Char :=
  match v with
  | '[' :: c :: ']' :: rest =>
    if c = ' ' || c = 'x' then rest.dropWhile isPyWs else v
  | _ => v

/-- Loop body of `extract_field_value`: scan the lines, return the
processed value of the first matching line, or the empty string. -/
def extractFieldGo (field : String) : List String → String
  | [] => ""
  | line :: rest =>
    match matchFieldLine field (stripChars line.data) with
    | some g => String.mk (stripCheckboxToken (stripChars g))
    | none => extractFieldGo field rest

/-- Embedding of `extract_field_value(text, field_name)`. -/
def extract_field_value (text field : String) : String :=
  extractFieldGo field (pyLines text)

/-- Match one raw line against the heading regular expression
`^(#{1,6})\s+(.+)$` of `parse_markdown_content`, returning the heading
level and the stripped heading text `group(2).strip()`.  A line of more
than six `#` characters never matches (every retry of the bounded
repetition leaves a `#` where `\s+` is required), and a match needs at
least one whitespace character followed by at least one further character. -/
def lineHeading (line : List Char) : Option (Nat × String) :=
  let n := (line.takeWhile fun c => c = '#').length
  let rest := line.dropWhile fun c => c = '#'
  if 1 ≤ n ∧ n ≤ 6 then
    match rest with
    | [] => none
    | c :: cs =>
      if isPyWs c ∧ ¬cs.isEmpty then
        some (n, String.mk (stripChars (rest.dropWhile isPyWs)))
      else none
  else none

/-- Ordered-dict assignment `d[k] = v`: update in place if the key exists,
else append. -/
def upsert : List (String × String) → String → String → List (String × String)
  | [], k, v => [(k, v)]
  | (k', v') :: rest, k, v =>
    if k' = k then (k, v) :: rest else (k', v') :: upsert rest k v

/-- The `sections[current_section] = "\n".join(current_content).strip()`
save step, a no-op while no section is open. -/
def saveSection (secs : List (String × String)) (cur : Option String)
    (content : List String) : List (String × String) :=
  match cur with
  | none => secs
  | some k => upsert secs k (pyStrip (joinNl content))

/-- Line loop of `parse_markdown_content`.  On any heading line the open
section is saved; only a heading of level at least 2 then resets the open
section, a level-1 heading leaves both the open section and its collected
content in place (the early save is overwritten by the next save). -/
def parseLoop : List String → Option String → List String →
    List (String × String) → List (String × String)
  | [], cur, content, secs => saveSection secs cur content
  | line :: rest, cur, content, secs =>
    match lineHeading line.data with
    | some (lvl, text) =>
      let secs' := saveSection secs cur content
      if 2 ≤ lvl then parseLoop rest (some text) [] secs'
      else parseLoop rest cur content secs'
    | none =>
      match cur with
      | some _ => parseLoop rest cur (content ++ [line]) secs
      | none => parseLoop rest cur content secs

/-- Embedding of `parse_markdown_content(content)`: the section mapping as
an insertion-ordered association list. -/
def parse_markdown_content (content : String) : List (String × String) :=
  parseLoop (pyLines content) none [] []

/-- Reference scanner following the specification's words: only a heading
of level at least 2 opens a new section (keyed by its trimmed text) and
implicitly closes the previous one; a level-1 heading is skipped entirely
and in particular does not terminate an open section; other lines belong
to the open section. -/
def specScan : List String → Option (String × List String) →
    List (String × String) → List (String × String)
  | [], none, secs => secs
  | [], some (k, c), secs => upsert secs k (pyStrip (joinNl c))
  | line :: rest, st, secs =>
    match lineHeading line.data with
    | some (lvl, text) =>
      if 2 ≤ lvl then
        specScan rest (some (text, []))
          (match st with
           | none => secs
           | some (k, c) => upsert secs k (pyStrip (joinNl c)))
      else specScan rest st secs
    | none =>
      match st with
      | some (k, c) => specScan rest (some (k, c ++ [line])) secs
      | none => specScan rest none secs

/-- Reference section mapping of a document, per the specification. -/
def specSections (content : String) : List (String × String) :=
  specScan (pyLines content) none []

/-- Decidable check that a document has no heading of level at least 2. -/
def noLevel2 (content : String) : Bool :=
  (pyLines content).all fun l =>
    match lineHeading l.data with
    | some (lvl, _) => decide (lvl < 2)
    | none => true

theorem upsert_upsert (m : List (String × String)) (k a b : String) :
    upsert (upsert m k a) k b = upsert m k b := by
  induction m with
  | nil => simp [upsert]
  | cons p rest ih =>
    obtain ⟨k', v'⟩ := p
    by_cases h : k' = k
    · simp [upsert, h]
    · simp [upsert, h, ih]

theorem parseLoop_early_save (lines : List String) :
    ∀ (k : String) (content : List String) (secs : List (String × String)) (v₀ : String),
      parseLoop lines (some k) content (upsert secs k v₀) =
        parseLoop lines (some k) content secs := by
  induction lines with
  | nil =>
    intro k content secs v₀
    simp [parseLoop, saveSection, upsert_upsert]
  | cons line rest ih =>
    intro k content secs v₀
    simp only [parseLoop]
    cases h : lineHeading line.data with
    | some p =>
      obtain ⟨lvl, text⟩ := p
      simp only [saveSection, upsert_upsert]
    | none => exact ih k (content ++ [line]) secs v₀

theorem parseLoop_spec (lines : List String) :
    ∀ (cur : Option String) (content : List String) (secs : List (String × String)),
      parseLoop lines cur content secs =
        specScan lines (cur.map fun k => (k, content)) secs := by
  induction lines with
  | nil =>
    intro cur content secs
    cases cur <;> simp [parseLoop, specScan, saveSection]
  | cons line rest ih =>
    intro cur content secs
    simp only [parseLoop, specScan]
    cases h : lineHeading line.data with
    | some p =>
      obtain ⟨lvl, text⟩ := p
      simp only
      by_cases hl : 2 ≤ lvl
      · simp only [hl, if_true]
        cases cur <;> simp [saveSection, ih]
      · simp only [hl, if_false]
        cases cur with
        | none => simp [saveSection, ih]
        | some k =>
          simp only [saveSection, Option.map]
          rw [parseLoop_early_save rest k content secs (pyStrip (joinNl content))]
          exact ih (some k) content secs
    | none =>
      cases cur with
      | none => exact ih none content secs
      | some k => exact ih (some k) (content ++ [line]) secs

theorem specScan_no_open (lines : List String) :
    ∀ secs : List (String × String),
      (lines.all fun l =>
        match lineHeading l.data with
        | some (lvl, _) => decide (lvl < 2)
        | none => true) = true →
      specScan lines none secs = secs := by
  induction lines with
  | nil => intro secs _; simp [specScan]
  | cons line rest ih =>
    intro secs hall
    simp only [List.all_cons, Bool.and_eq_true] at hall
    simp only [specScan]
    cases h : lineHeading line.data with
    | some p =>
      obtain ⟨lvl, text⟩ := p
      have : lvl < 2 := by
        have := hall.1
        rw [h] at this
        exact of_decide_eq_true this
      simp only [Nat.not_le.mpr this, if_neg (Nat.not_le.mpr this)]
      exact ih secs hall.2
    | none => exact ih secs hall.2

theorem extractFieldGo_findSome (field : String) (lines : List String) :
    extractFieldGo field lines =
      match lines.findSome? (fun l => matchFieldLine field (stripChars l.data)) with
      | none => ""
      | some g => String.mk (stripCheckboxToken (stripChars g)) := by
  induction lines with
  | nil => simp [extractFieldGo]
  | cons line rest ih =>
    simp only [extractFieldGo, List.findSome?_cons]
    cases h : matchFieldLine field (stripChars line.data) with
    | some g => simp
    | none => simpa using ih

/-- C7: in the section scanner, only headings of level at least 2 open a new
section (keyed by trimmed heading text) and implicitly close the previous
one; a level-1 heading is never a section key and does not terminate a
previously opened section; empty input, or input with no heading of level
at least 2, yields an empty mapping.  Stated as: the scanner agrees with
the reference single-pass scanner `specScan` in which level-1 headings are
skipped outright, and the two degenerate inputs yield the empty mapping. -/
theorem C7_section_scanner :
    (∀ content, parse_markdown_content content = specSections content) ∧
    parse_markdown_content "" = [] ∧
    (∀ content, noLevel2 content = true → parse_markdown_content content = []) := by
  refine ⟨fun content => ?_, by decide, fun content h => ?_⟩
  · exact parseLoop_spec (pyLines content) none [] []
  · exact (parseLoop_spec (pyLines content) none [] []).trans
      (specScan_no_open (pyLines content) [] h)

/-- Witness for C7: a document whose only heading is level 1 yields an empty
section mapping, and a concrete two-section document is scanned as the
reference scanner prescribes. -/
theorem C7_section_scanner_witness :
    parse_markdown_content "# Title\nintro text\n# Another" = [] ∧
    parse_markdown_content "## A\nx\n# T\ny\n## B\nz" =
      specSections "## A\nx\n# T\ny\n## B\nz" :=
  ⟨C7_section_scanner.2.2 "# Title\nintro text\n# Another" (by decide),
   C7_section_scanner.1 "## A\nx\n# T\ny\n## B\nz"⟩

/-- C8 (counterexample): the claim says the leading checkbox token is
stripped case-insensitively on the x, so on the line
`- **Status**: [X] Done` it predicts the value `Done`; the code's
checkbox substitution is compiled without `re.IGNORECASE` and leaves the
uppercase token in place, returning `[X] Done`. -/
theorem C8_counterexample :
    extract_field_value "- **Status**: [X] Done" "Status" = "[X] Done" ∧
    extract_field_value "- **Status**: [X] Done" "Status" ≠ "Done" := by
  constructor <;> decide

/-- C8 (amended): `extract_field_value(text, field_name)` returns, for the
first line matching the field-line pattern with a case-insensitive
field-name match, the trimmed value with a leading checkbox token stripped
if present — where the token must be `[x]` with a lowercase x or `[ ]`, an
uppercase `[X]` is kept — and returns the empty string when no line
matches.  Stated as: the scanning loop returns the processed value of the
first matching line (via `List.findSome?`), together with the two
checkbox behaviours on concrete lines. -/
theorem C8_extract_field_value :
    (∀ text field,
      extract_field_value text field =
        match (pyLines text).findSome?
            (fun l => matchFieldLine field (stripChars l.data)) with
        | none => ""
        | some g => String.mk (stripCheckboxToken (stripChars g))) ∧
    extract_field_value "- **Status**: [x] Done" "Status" = "Done" ∧
    extract_field_value "- **Status**: [ ] Done" "Status" = "Done" ∧
    extract_field_value "no match here" "Status" = "" := by
  refine ⟨fun text field => extractFieldGo_findSome field (pyLines text),
    by decide, by decide, by decide⟩

/-!  Embedding of `claude_planner/generator/brief_extractor.py` (the part
used by the claims: `extract_basic_info`). -/

/-- Python `dict.get(key, "")` on a string-valued ordered dictionary. -/
def dictGet (m : List (String × String)) (k : String) : String :=
  ((m.find? fun p => p.1 = k).map Prod.snd).getD ""

/-- Python `value.split("+")`. -/
def splitPlus (v : String) : List String :=
  (splitChar '+' v.data).map String.mk

/-- Test of `re.match(r"\[x\]", part, re.IGNORECASE)`: the part starts with
a checked checkbox token, the x case-insensitive. -/
def startsWithChecked (part : String) : Bool :=
  match part.data with
  | '[' :: c :: ']' :: _ => c = 'x' || c = 'X'
  | _ => false

/-- Test of `part.startswith("[")`. -/
def startsWithBracket (part : String) : Bool :=
  match part.data with
  | '[' :: _ => true
  | _ => false

/-- Fuel-indexed body of `re.sub(r"\[x\]\s*", "", part, flags=re.IGNORECASE)`:
remove every occurrence of a checked checkbox token together with the
following whitespace, scanning left to right.  The fuel is the length of
the list, which bounds the number of steps. -/
def removeCheckedF : Nat → List Char → List Char
  | 0, l => l
  | _, [] => []
  | f + 1, '[' :: c :: ']' :: rest =>
    if c = 'x' || c = 'X' then removeCheckedF f (rest.dropWhile isPyWs)
    else '[' :: removeCheckedF f (c :: ']' :: rest)
  | f + 1, a :: rest => a :: removeCheckedF f rest

/-- The checked-token removal `re.sub(r"\[x\]\s*", "", part, flags=re.IGNORECASE)`. -/
def removeChecked (l : List Char) : List Char :=
  removeCheckedF l.length l

/-- Per-part body of the project-type loop of `extract_basic_info`. -/
def projectTypePart (part : String) : List String :=
  let p := pyStrip part
  if startsWithChecked p then
    let clean := pyStrip (String.mk (removeChecked p.data))
    if clean ≠ "" then [clean] else []
  else if ¬startsWithBracket p then
    if p ≠ "" then [p] else []
  else []

/-- The project-type extraction of `extract_basic_info`: split the
already-extracted field line on `+` and process each part. -/
def projectTypeOfLine (ptLine : String) : List String :=
  if ptLine = "" then []
  else (splitPlus ptLine).flatMap projectTypePart

/-- Output record of `extract_basic_info` (the extractor always returns
these six entries). -/
structure BasicInfo where
  project_name : String
  project_type : List String
  primary_goal : String
  target_users : String
  timeline : String
  team_size : String
deriving DecidableEq, Repr

/-- Embedding of `extract_basic_info(sections)`. -/
def extract_basic_info (sections : List (String × String)) : BasicInfo :=
  let sec := dictGet sections "Basic Information"
  { project_name := extract_field_value sec "Project Name"
    project_type := projectTypeOfLine (extract_field_value sec "Project Type")
    primary_goal := extract_field_value sec "Primary Goal"
    target_users := extract_field_value sec "Target Users"
    timeline := extract_field_value sec "Timeline"
    team_size := extract_field_value sec "Team Size" }

/-- C4 (counterexample): the claim says '+'-separated segments marked
`[ ]` are dropped in every position including the first, so on the section
line `- **Project Type**: [ ] Library + [x] CLI Tool` it predicts
`project_type == ["CLI Tool"]`.  But `extract_field_value` strips the
first segment's checkbox token whether it is `[x]` or `[ ]`, so the
unchecked first segment `Library` is kept and the result is
`["Library", "CLI Tool"]`. -/
theorem C4_counterexample :
    (extract_basic_info [("Basic Information",
        "- **Project Name**: Demo\n- **Project Type**: [ ] Library + [x] CLI Tool\n- **Primary Goal**: g\n- **Target Users**: u\n- **Timeline**: 1 week")]).project_type
      = ["Library", "CLI Tool"] ∧
    (extract_basic_info [("Basic Information",
        "- **Project Name**: Demo\n- **Project Type**: [ ] Library + [x] CLI Tool\n- **Primary Goal**: g\n- **Target Users**: u\n- **Timeline**: 1 week")]).project_type
      ≠ ["CLI Tool"] := by
  constructor <;> decide

/-- C4 (amended): for the inline multi-checkbox project-type field,
`extract_basic_info` keeps a non-first '+'-separated segment exactly when
it is marked `[x]` (case-insensitive); the first segment — whose leading
checkbox token, checked or not, has already been stripped by
`extract_field_value` — is always kept when non-empty.  In particular the
claimed scenario line `[x] CLI Tool + [ ] Library` yields `["CLI Tool"]`,
while `[ ] Library + [x] CLI Tool` yields `["Library", "CLI Tool"]`.
Stated as the claimed concrete scenario, the behaviour on an
unchecked-first line, and the per-segment processing facts: a segment
starting with `[` that is not `[x]`-checked contributes nothing, and a
checked segment contributes its cleaned text. -/
theorem C4_project_type :
    (extract_basic_info [("Basic Information",
        "- **Project Name**: Demo\n- **Project Type**: [x] CLI Tool + [ ] Library\n- **Primary Goal**: g\n- **Target Users**: u\n- **Timeline**: 1 week")]).project_type
      = ["CLI Tool"] ∧
    (extract_basic_info [("Basic Information",
        "- **Project Name**: Demo\n- **Project Type**: [ ] Library + [x] CLI Tool\n- **Primary Goal**: g\n- **Target Users**: u\n- **Timeline**: 1 week")]).project_type
      = ["Library", "CLI Tool"] ∧
    (∀ part : String, startsWithBracket (pyStrip part) = true →
      startsWithChecked (pyStrip part) = false → projectTypePart part = []) ∧
    (∀ part : String, startsWithChecked (pyStrip part) = true →
      projectTypePart part =
        (if pyStrip (String.mk (removeChecked (pyStrip part).data)) ≠ "" then
          [pyStrip (String.mk (removeChecked (pyStrip part).data))] else [])) := by
  refine ⟨by decide, by decide, fun part h1 h2 => ?_, fun part h => ?_⟩
  · simp [projectTypePart, h1, h2]
  · simp [projectTypePart, h]

/-!  Embedding of the data model of `claude_planner/models.py`. -/

/-- The `ProjectBrief` dataclass.  Python string-keyed dicts are modelled
as insertion-ordered association lists and `None`-able strings as
`Option String`. -/
structure ProjectBrief where
  project_name : String
  project_type : String
  primary_goal : String
  target_users : String
  timeline : String
  team_size : String := "1"
  key_features : List String := []
  nice_to_have_features : List String := []
  must_use_tech : List String := []
  cannot_use_tech : List String := []
  deployment_target : Option String := none
  budget_constraints : Option String := none
  performance_requirements : List (String × String) := []
  security_requirements : List (String × String) := []
  scalability_requirements : List (String × String) := []
  availability_requirements : List (String × String) := []
  team_composition : Option String := none
  existing_knowledge : List String := []
  learning_budget : Option String := none
  infrastructure_access : List String := []
  success_criteria : List String := []
  known_challenges : List String := []
  reference_materials : List String := []
  questions_and_clarifications : List String := []
  architecture_vision : Option String := none
  use_cases : List String := []
  deliverables : List String := []
deriving DecidableEq, Repr

/-- `ProjectBrief.validate`: the five required-field checks, in source
order.  Python's `not x or not x.strip()` is equivalent to
`pyStrip x = ""`. -/
def ProjectBrief.validate (b : ProjectBrief) : List String :=
  (if pyStrip b.project_name = "" then ["project_name is required and cannot be empty"] else []) ++
  (if pyStrip b.project_type = "" then ["project_type is required and cannot be empty"] else []) ++
  (if pyStrip b.primary_goal = "" then ["primary_goal is required and cannot be empty"] else []) ++
  (if pyStrip b.target_users = "" then ["target_users is required and cannot be empty"] else []) ++
  (if pyStrip b.timeline = "" then ["timeline is required and cannot be empty"] else [])

/-!  Embedding of `claude_planner/generator/brief_converter.py`. -/

/-- Output record of `extract_requirements`. -/
structure Requirements where
  input : List String := []
  output : List String := []
  key_features : List String := []
  nice_to_have : List String := []
deriving DecidableEq, Repr

/-- Output record of `extract_tech_constraints`. -/
structure TechConstraints where
  must_use : List String := []
  cannot_use : List String := []
  deployment_target : List String := []
deriving DecidableEq, Repr

/-- Output record of `extract_quality_requirements`. -/
structure QualityReqs where
  performance : List (String × String) := []
  security : List (String × String) := []
  scalability : List (String × String) := []
deriving DecidableEq, Repr

/-- Output record of `extract_team_info`. -/
structure TeamInfo where
  team_composition : List (String × Bool) := []
  existing_knowledge : List String := []
  infrastructure : List String := []
deriving DecidableEq, Repr

/-- `_get_string_field(data, field_name, required=True)` on a present
string value: raise if the stripped value is empty, else return the
stripped value. -/
def getRequiredStringField (value fieldName : String) : Except String String :=
  if pyStrip value = "" then
    Except.error ("Required field '" ++ fieldName ++ "' is missing or empty")
  else Except.ok (pyStrip value)

/-- Embedding of `convert_to_project_brief`, with `ValueError` modelled as
`Except.error`. -/
def convert_to_project_brief (basic : BasicInfo) (reqs : Requirements)
    (tech : TechConstraints) (quality : QualityReqs) (team : TeamInfo) :
    Except String ProjectBrief := do
  let project_name ← getRequiredStringField basic.project_name "project_name"
  let primary_goal ← getRequiredStringField basic.primary_goal "primary_goal"
  let target_users ← getRequiredStringField basic.target_users "target_users"
  let timeline ← getRequiredStringField basic.timeline "timeline"
  let project_type ←
    if basic.project_type.isEmpty then
      Except.error "Required field 'project_type' is missing or empty"
    else Except.ok (joinSep ", " basic.project_type)
  let team_size0 := pyStrip basic.team_size
  let team_size := if pyStrip team_size0 = "" then "1" else team_size0
  let deployment_target :=
    if tech.deployment_target.isEmpty then none
    else some (joinSep ", " tech.deployment_target)
  let team_comp_parts := team.team_composition.map fun rc =>
    rc.1 ++ ": " ++ (if rc.2 then "Yes" else "No")
  let team_composition :=
    if team_comp_parts.isEmpty then none else some (joinSep ", " team_comp_parts)
  let brief : ProjectBrief :=
    { project_name := project_name
      project_type := project_type
      primary_goal := primary_goal
      target_users := target_users
      timeline := timeline
      team_size := team_size
      key_features := reqs.key_features
      nice_to_have_features := reqs.nice_to_have
      must_use_tech := tech.must_use
      cannot_use_tech := tech.cannot_use
      deployment_target := deployment_target
      performance_requirements := quality.performance
      security_requirements := quality.security
      scalability_requirements := quality.scalability
      team_composition := team_composition
      existing_knowledge := team.existing_knowledge
      infrastructure_access := team.infrastructure }
  let errors := brief.validate
  if errors.isEmpty then Except.ok brief
  else
    Except.error ("ProjectBrief validation failed:\n" ++
      joinSep "\n" (errors.map fun e => "  - " ++ e))

/-- Success condition for Brief assembly: each of the five required fields
is non-empty after trimming, where the project type is the comma-joined
checked-options list. -/
def RequiredOk (basic : BasicInfo) : Prop :=
  pyStrip basic.project_name ≠ "" ∧ pyStrip basic.primary_goal ≠ "" ∧
  pyStrip basic.target_users ≠ "" ∧ pyStrip basic.timeline ≠ "" ∧
  ¬basic.project_type.isEmpty ∧ pyStrip (joinSep ", " basic.project_type) ≠ ""

instance (basic : BasicInfo) : Decidable (RequiredOk basic) := by
  unfold RequiredOk; infer_instance

/-- The error message the assembler produces for the first failing
required field, in the order the code checks them: project name, primary
goal, target users, timeline, then project type (whose empty-list case and
whitespace-join case produce different messages). -/
def firstRequiredFailure (basic : BasicInfo) : String :=
  if pyStrip basic.project_name = "" then
    "Required field 'project_name' is missing or empty"
  else if pyStrip basic.primary_goal = "" then
    "Required field 'primary_goal' is missing or empty"
  else if pyStrip basic.target_users = "" then
    "Required field 'target_users' is missing or empty"
  else if pyStrip basic.timeline = "" then
    "Required field 'timeline' is missing or empty"
  else if basic.project_type.isEmpty then
    "Required field 'project_type' is missing or empty"
  else
    "ProjectBrief validation failed:\n  - project_type is required and cannot be empty"

/-- Success test for an `Except` result. -/
def isOk {ε α : Type} : Except ε α → Bool
  | Except.ok _ => true
  | Except.error _ => false

theorem dropWhile_cons_head {α : Type} {p : α → Bool} :
    ∀ (l : List α) (a : α) (z : List α), List.dropWhile p l = a :: z → p a = false := by
  intro l
  induction l with
  | nil => intro a z h; simp [List.dropWhile] at h
  | cons b t ih =>
    intro a z h
    by_cases hb : p b
    · rw [List.dropWhile_cons_of_pos hb] at h
      exact ih a z h
    · rw [List.dropWhile_cons_of_neg hb] at h
      obtain ⟨rfl, _⟩ := List.cons.inj h
      simpa using hb

theorem stripChars_idem (l : List Char) :
    stripChars (stripChars l) = stripChars l := by
  have hrd : stripChars l = List.rdropWhile isPyWs (l.dropWhile isPyWs) := rfl
  have hdw : List.dropWhile isPyWs (stripChars l) = stripChars l := by
    cases hc : stripChars l with
    | nil => simp
    | cons a t' =>
      obtain ⟨t, ht⟩ :=
        List.rdropWhile_prefix isPyWs (l := l.dropWhile isPyWs)
      rw [hrd] at hc
      rw [hc] at ht
      have ha : isPyWs a = false :=
        dropWhile_cons_head l a (t' ++ t) (by rw [← ht]; rfl)
      rw [List.dropWhile_cons_of_neg (by simp [ha])]
  calc stripChars (stripChars l)
      = List.rdropWhile isPyWs (List.dropWhile isPyWs (stripChars l)) := rfl
    _ = List.rdropWhile isPyWs (stripChars l) := by rw [hdw]
    _ = stripChars l := by rw [hrd]; exact List.rdropWhile_idempotent _ _

theorem pyStrip_idem (s : String) : pyStrip (pyStrip s) = pyStrip s := by
  simp [pyStrip, stripChars_idem]

instance {ε α : Type} [DecidableEq ε] [DecidableEq α] : DecidableEq (Except ε α) :=
  fun x y =>
    match x, y with
    | Except.ok a, Except.ok b =>
      if h : a = b then Decidable.isTrue (congrArg Except.ok h)
      else Decidable.isFalse fun hc => h (Except.ok.inj hc)
    | Except.error a, Except.error b =>
      if h : a = b then Decidable.isTrue (congrArg Except.error h)
      else Decidable.isFalse fun hc => h (Except.error.inj hc)
    | Except.ok _, Except.error _ => Decidable.isFalse fun hc => Except.noConfusion hc
    | Except.error _, Except.ok _ => Decidable.isFalse fun hc => Except.noConfusion hc

/-- C1 (counterexample): with project name `Demo`, an empty project-type
list and an empty primary goal, both project_type and primary_goal are
failing required fields; the claim's fixed order would report project_type
first and its message would name both fields, but the code raises on
primary_goal alone and its message does not mention project_type. -/
theorem C1_counterexample :
    convert_to_project_brief
        { project_name := "Demo", project_type := [], primary_goal := "",
          target_users := "users", timeline := "1 week", team_size := "" }
        {} {} {} {}
      = Except.error "Required field 'primary_goal' is missing or empty" ∧
    strContains "Required field 'primary_goal' is missing or empty" "project_type"
      = false := by
  constructor <;> decide

/-- C1 (amended): Brief construction from the five extractor-output
records fails if and only if at least one required field among
project_name, primary_goal, target_users, timeline, project_type (as the
comma-joined list) is empty or whitespace after trimming; the checks run
in the order project_name, primary_goal, target_users, timeline,
project_type, and the failure message names only the first failing field
in that order (with the whitespace-only project-type case surfacing
through the model-validation message), not every failing field. -/
theorem C1_brief_required_fields :
    (∀ (basic : BasicInfo) (reqs : Requirements) (tech : TechConstraints)
        (quality : QualityReqs) (team : TeamInfo),
      isOk (convert_to_project_brief basic reqs tech quality team) = true ↔
        RequiredOk basic) ∧
    (∀ (basic : BasicInfo) (reqs : Requirements) (tech : TechConstraints)
        (quality : QualityReqs) (team : TeamInfo) (e : String),
      convert_to_project_brief basic reqs tech quality team = Except.error e →
        e = firstRequiredFailure basic) := by
  have key : ∀ (basic : BasicInfo) (reqs : Requirements) (tech : TechConstraints)
      (quality : QualityReqs) (team : TeamInfo),
      (isOk (convert_to_project_brief basic reqs tech quality team) = true ↔
        RequiredOk basic) ∧
      (∀ e, convert_to_project_brief basic reqs tech quality team = Except.error e →
        e = firstRequiredFailure basic) := by
    intro basic reqs tech quality team
    by_cases h1 : pyStrip basic.project_name = ""
    · simp [convert_to_project_brief, getRequiredStringField, h1, isOk,
        RequiredOk, firstRequiredFailure, Bind.bind, Except.bind]
    by_cases h2 : pyStrip basic.primary_goal = ""
    · simp [convert_to_project_brief, getRequiredStringField, h1, h2, isOk,
        RequiredOk, firstRequiredFailure, Bind.bind, Except.bind]
    by_cases h3 : pyStrip basic.target_users = ""
    · simp [convert_to_project_brief, getRequiredStringField, h1, h2, h3, isOk,
        RequiredOk, firstRequiredFailure, Bind.bind, Except.bind]
    by_cases h4 : pyStrip basic.timeline = ""
    · simp [convert_to_project_brief, getRequiredStringField, h1, h2, h3, h4, isOk,
        RequiredOk, firstRequiredFailure, Bind.bind, Except.bind]
    by_cases h5 : basic.project_type.isEmpty
    · simp [convert_to_project_brief, getRequiredStringField, h1, h2, h3, h4, h5, isOk,
        RequiredOk, firstRequiredFailure, Bind.bind, Except.bind]
    by_cases h6 : pyStrip (joinSep ", " basic.project_type) = ""
    · simp [convert_to_project_brief, getRequiredStringField, h1, h2, h3, h4, h5, h6,
        isOk, RequiredOk, firstRequiredFailure, Bind.bind, Except.bind,
        ProjectBrief.validate, pyStrip_idem, joinSep]
    · simp [convert_to_project_brief, getRequiredStringField, h1, h2, h3, h4, h5, h6,
        isOk, RequiredOk, firstRequiredFailure, Bind.bind, Except.bind,
        ProjectBrief.validate, pyStrip_idem, pure, Except.pure, joinSep]
  exact ⟨fun basic reqs tech quality team => (key basic reqs tech quality team).1,
    fun basic reqs tech quality team => (key basic reqs tech quality team).2⟩

/-- Witness for C1: on a fully populated record the conversion succeeds,
and on a record whose timeline is whitespace it fails with the message for
the first failing field in code order. -/
theorem C1_brief_required_fields_witness :
    isOk (convert_to_project_brief
        { project_name := "Demo", project_type := ["CLI Tool"], primary_goal := "g",
          target_users := "u", timeline := "1 week", team_size := "" }
        {} {} {} {}) = true ∧
    ("Required field 'timeline' is missing or empty" =
      firstRequiredFailure
        { project_name := "Demo", project_type := [], primary_goal := "g",
          target_users := "u", timeline := "  ", team_size := "" }) := by
  constructor
  · exact (C1_brief_required_fields.1
      { project_name := "Demo", project_type := ["CLI Tool"], primary_goal := "g",
        target_users := "u", timeline := "1 week", team_size := "" }
      {} {} {} {}).mpr (by decide)
  · exact C1_brief_required_fields.2
      { project_name := "Demo", project_type := [], primary_goal := "g",
        target_users := "u", timeline := "  ", team_size := "" }
      {} {} {} {} "Required field 'timeline' is missing or empty" (by decide)

/-!  Embedding of `claude_planner/generator/tech_stack_gen.py`.  The
template lookup (`select_template` plus `load_template_config`, a file
read) is modelled by passing the loaded `default_tech_stack` mapping as an
explicit argument. -/

/-- The `default_tech_stack` mapping of a template configuration; a key
absent from the YAML mapping is `none`. -/
structure TemplateDefaults where
  language : Option String := none
  framework : Option String := none
  database : Option String := none
  cache : Option String := none
  deployment : Option String := none
  packaging : Option String := none
deriving DecidableEq, Repr

/-- The `TechStack` dataclass. -/
structure TechStack where
  language : String
  framework : String := ""
  database : String := ""
  testing : String := ""
  linting : String := ""
  type_checking : String := ""
  deployment : String := ""
  ci_cd : String := ""
  additional_tools : List (String × String) := []
deriving DecidableEq, Repr

/-- Rendering of the Python set of conflicting constraints inside the
conflict error message.  Python renders a `set`, whose iteration order is
unspecified; the model renders the deduplicated conflicts in `must_use`
order, which names exactly the same items. -/
def conflictsRepr (conflicts : List String) : String :=
  "\x7b" ++ joinSep ", " (conflicts.map fun t => "'" ++ t ++ "'") ++ "\x7d"

/-- Embedding of `generate_tech_stack(brief)` given the template's
defaults. -/
def generate_tech_stack (td : TemplateDefaults) (brief : ProjectBrief) :
    Except String TechStack :=
  let must_use := brief.must_use_tech.map pyLower
  let cannot_use := brief.cannot_use_tech.map pyLower
  let conflicts := (must_use.filter fun t => t ∈ cannot_use).dedup
  if ¬conflicts.isEmpty then
    Except.error ("Conflicting constraints: " ++ conflictsRepr conflicts ++
      " appears in both must_use_tech and cannot_use_tech")
  else
    let language := match td.language with
      | some v => if pyLower v ∈ cannot_use then "" else v
      | none => ""
    let framework := match td.framework with
      | some v => if pyLower v ∈ cannot_use then "" else v
      | none => ""
    let database := match td.database with
      | some v => if pyLower v ∈ cannot_use then "" else v
      | none => ""
    let cacheTools := match td.cache with
      | some v => if pyLower v ∈ cannot_use then [] else [("cache", v)]
      | none => []
    let deployment := match td.deployment with
      | some v => if cannot_use.any fun c => strContains (pyLower v) c then "" else v
      | none => ""
    let packagingTools := match td.packaging with
      | some v => if pyLower v ∈ cannot_use then [] else [("packaging", v)]
      | none => []
    let additional_tools := cacheTools ++ packagingTools ++
      (brief.must_use_tech.enum.map fun it => ("must_use_" ++ toString it.1, it.2))
    let language := if language = "" then "Python 3.11+" else language
    let testing :=
      if strContains (pyLower language) "python" then "pytest"
      else if ["javascript", "typescript"].any fun js => strContains (pyLower language) js
        then "jest" else ""
    let linting :=
      if strContains (pyLower language) "python" then "ruff"
      else if ["javascript", "typescript"].any fun js => strContains (pyLower language) js
        then "eslint" else ""
    let type_checking :=
      if strContains (pyLower language) "python" then "mypy"
      else if strContains (pyLower language) "typescript" then "TypeScript" else ""
    let ci_cd := "GitHub Actions"
    Except.ok
      { language := language
        framework := framework
        database := database
        testing := testing
        linting := linting
        type_checking := type_checking
        deployment := deployment
        ci_cd := ci_cd
        additional_tools := additional_tools }

theorem listContains_iff (sub : List Char) :
    ∀ l : List Char, listContains l sub = true ↔ sub <:+: l := by
  intro l
  induction l with
  | nil => simp [listContains, List.isEmpty_iff, List.infix_nil]
  | cons a t ih =>
    simp only [listContains, Bool.or_eq_true, List.isPrefixOf_iff_prefix, ih,
      List.infix_cons_iff]

theorem strContains_of_infix {s sub : String} (h : sub.data <:+: s.data) :
    strContains s sub = true :=
  (listContains_iff sub.data s.data).mpr h

theorem infix_append_left' {l x y : List Char} (h : l <:+: x) : l <:+: x ++ y := by
  obtain ⟨s, t, hst⟩ := h
  exact ⟨s, t ++ y, by rw [← hst]; simp⟩

theorem infix_append_right' {l x y : List Char} (h : l <:+: y) : l <:+: x ++ y := by
  obtain ⟨s, t, hst⟩ := h
  exact ⟨x ++ s, t, by rw [← hst]; simp⟩

theorem infix_quoted (t : String) : t.data <:+: ("'" ++ t ++ "'").data := by
  refine ⟨['\''], ['\''], ?_⟩
  simp [String.data_append]

theorem infix_joinQuoted (t : String) :
    ∀ l : List String, t ∈ l →
      t.data <:+: (joinSep ", " (l.map fun x => "'" ++ x ++ "'")).data := by
  intro l
  induction l with
  | nil => intro h; cases h
  | cons a rest ih =>
    intro hmem
    rcases List.mem_cons.mp hmem with rfl | htail
    · cases rest with
      | nil => exact infix_quoted t
      | cons b r2 =>
        have hj : joinSep ", " ((t :: b :: r2).map fun x => "'" ++ x ++ "'") =
            "'" ++ t ++ "'" ++ ", " ++
              joinSep ", " ((b :: r2).map fun x => "'" ++ x ++ "'") := rfl
        rw [hj, String.data_append, String.data_append]
        exact infix_append_left' (infix_append_left' (infix_quoted t))
    · cases rest with
      | nil => cases htail
      | cons b r2 =>
        have hj : joinSep ", " ((a :: b :: r2).map fun x => "'" ++ x ++ "'") =
            "'" ++ a ++ "'" ++ ", " ++
              joinSep ", " ((b :: r2).map fun x => "'" ++ x ++ "'") := rfl
        rw [hj, String.data_append]
        exact infix_append_right' (ih htail)

theorem enumFrom_map_snd {α β : Type} (f : Nat → β) (l : List α) :
    ∀ n : Nat, ((l.enumFrom n).map fun it => (f it.1, it.2)).map Prod.snd = l := by
  induction l with
  | nil => intro n; rfl
  | cons a t ih => intro n; simp only [List.enumFrom, List.map_cons, ih n.succ]

theorem infix_str {sub mid : String} (h : sub.data <:+: mid.data)
    (pre post : String) : sub.data <:+: (pre ++ mid ++ post).data := by
  rw [String.data_append, String.data_append]
  exact infix_append_left' (infix_append_right' h)

/-- C2: for every Brief whose must-use and cannot-use lists share a
case-insensitive element, tech-stack derivation fails with a conflict
error whose message names every offending (lowercased) item, before
producing any TechStack. -/
theorem C2_conflict_precondition :
    ∀ (td : TemplateDefaults) (brief : ProjectBrief),
      (∃ t, t ∈ brief.must_use_tech ∧
        pyLower t ∈ brief.cannot_use_tech.map pyLower) →
      ∃ e, generate_tech_stack td brief = Except.error e ∧
        ∀ t, t ∈ brief.must_use_tech →
          pyLower t ∈ brief.cannot_use_tech.map pyLower →
          strContains e (pyLower t) = true := by
  intro td brief ⟨t0, ht0m, ht0c⟩
  have hmem : ∀ t, t ∈ brief.must_use_tech →
      pyLower t ∈ brief.cannot_use_tech.map pyLower →
      pyLower t ∈ ((brief.must_use_tech.map pyLower).filter
        fun x => x ∈ brief.cannot_use_tech.map pyLower).dedup := by
    intro t htm htc
    rw [List.mem_dedup, List.mem_filter]
    exact ⟨List.mem_map_of_mem pyLower htm, by simpa using htc⟩
  have hne : (((brief.must_use_tech.map pyLower).filter
      fun x => x ∈ brief.cannot_use_tech.map pyLower).dedup).isEmpty = false := by
    have hnil := List.ne_nil_of_mem (hmem t0 ht0m ht0c)
    cases hE : (((brief.must_use_tech.map pyLower).filter
        fun x => x ∈ brief.cannot_use_tech.map pyLower).dedup).isEmpty
    · rfl
    · exact absurd (List.isEmpty_iff.mp hE) hnil
  refine ⟨"Conflicting constraints: " ++
      conflictsRepr (((brief.must_use_tech.map pyLower).filter
        fun x => x ∈ brief.cannot_use_tech.map pyLower).dedup) ++
      " appears in both must_use_tech and cannot_use_tech", ?_, ?_⟩
  · simp [generate_tech_stack, hne]
    obtain ⟨x1, hx1, hx1e⟩ := List.mem_map.mp ht0c
    exact ⟨t0, ht0m, x1, hx1, hx1e⟩
  · intro t htm htc
    exact strContains_of_infix
      (infix_str (infix_str (infix_joinQuoted (pyLower t) _ (hmem t htm htc))
        "\x7b" "\x7d") "Conflicting constraints: "
        " appears in both must_use_tech and cannot_use_tech")

/-- Witness for C2: a Brief requiring Django while forbidding django is
rejected with a conflict error naming django. -/
theorem C2_conflict_precondition_witness :
    ∃ e, generate_tech_stack {}
        { project_name := "Demo", project_type := "API", primary_goal := "g",
          target_users := "u", timeline := "1 week",
          must_use_tech := ["Django"], cannot_use_tech := ["django"] }
      = Except.error e ∧ strContains e "django" = true := by
  obtain ⟨e, he, hall⟩ := C2_conflict_precondition {}
    { project_name := "Demo", project_type := "API", primary_goal := "g",
      target_users := "u", timeline := "1 week",
      must_use_tech := ["Django"], cannot_use_tech := ["django"] }
    ⟨"Django", by decide, by decide⟩
  exact ⟨e, he, hall "Django" (by decide) (by decide)⟩

/-- C5: tech-stack derivation applies a template default only when not
blocked by the cannot-use set, while every must-use entry is
unconditionally added as a value of the additional-tools map.  Stated as:
on success every must-use entry appears among the additional-tools values;
a template framework whose lowercase form is in the lowered cannot-use set
yields an empty framework; and the claim's concrete scenario (must use
Django, cannot use FastAPI, template framework FastAPI) produces an empty
framework with Django among the additional-tools values. -/
theorem C5_must_use_passthrough :
    (∀ (td : TemplateDefaults) (brief : ProjectBrief) (ts : TechStack),
      generate_tech_stack td brief = Except.ok ts →
      ∀ t, t ∈ brief.must_use_tech → t ∈ ts.additional_tools.map Prod.snd) ∧
    (∀ (td : TemplateDefaults) (brief : ProjectBrief) (ts : TechStack) (f : String),
      generate_tech_stack td brief = Except.ok ts → td.framework = some f →
      pyLower f ∈ brief.cannot_use_tech.map pyLower → ts.framework = "") ∧
    (∃ ts : TechStack,
      generate_tech_stack { framework := some "FastAPI" }
          { project_name := "Demo", project_type := "API", primary_goal := "g",
            target_users := "u", timeline := "1 week",
            must_use_tech := ["Django"], cannot_use_tech := ["FastAPI"] }
        = Except.ok ts ∧
      ts.framework = "" ∧ "Django" ∈ ts.additional_tools.map Prod.snd) := by
  refine ⟨?_, ?_, ?_⟩
  · intro td brief ts h t htm
    simp only [generate_tech_stack] at h
    split at h
    · exact absurd h (by simp)
    · have hts := Except.ok.inj h
      rw [← hts]
      simp only [List.map_append]
      refine List.mem_append.mpr (Or.inr ?_)
      have hsnd :
          ((brief.must_use_tech.enum.map
            fun it => ("must_use_" ++ toString it.1, it.2)).map Prod.snd)
            = brief.must_use_tech :=
        enumFrom_map_snd (fun i => "must_use_" ++ toString i) brief.must_use_tech 0
      rw [hsnd]
      exact htm
  · intro td brief ts f h hf hmem
    simp only [generate_tech_stack] at h
    split at h
    · exact absurd h (by simp)
    · have hts := Except.ok.inj h
      rw [← hts]
      simp [hf, hmem]
  · exact ⟨TechStack.mk "Python 3.11+" "" "" "pytest" "ruff" "mypy" ""
      "GitHub Actions" [("must_use_0", "Django")], by decide, rfl, by decide⟩

/-- Witness for C5: the two conditional parts applied at the claim's
concrete scenario. -/
theorem C5_must_use_passthrough_witness :
    "Django" ∈ (TechStack.mk "Python 3.11+" "" "" "pytest" "ruff" "mypy" ""
        "GitHub Actions" [("must_use_0", "Django")]).additional_tools.map Prod.snd ∧
    (TechStack.mk "Python 3.11+" "" "" "pytest" "ruff" "mypy" ""
        "GitHub Actions" [("must_use_0", "Django")]).framework = "" := by
  constructor
  · exact C5_must_use_passthrough.1 { framework := some "FastAPI" }
      { project_name := "Demo", project_type := "API", primary_goal := "g",
        target_users := "u", timeline := "1 week",
        must_use_tech := ["Django"], cannot_use_tech := ["FastAPI"] }
      _ (by decide) "Django" (by decide)
  · exact C5_must_use_passthrough.2.1 { framework := some "FastAPI" }
      { project_name := "Demo", project_type := "API", primary_goal := "g",
        target_users := "u", timeline := "1 week",
        must_use_tech := ["Django"], cannot_use_tech := ["FastAPI"] }
      _ "FastAPI" (by decide) rfl (by decide)

/-- C9: whenever tech-stack derivation succeeds, the returned TechStack
has a non-empty language: if neither the template nor any other source
supplies one, the fixed default is applied. -/
theorem C9_language_nonempty :
    ∀ (td : TemplateDefaults) (brief : ProjectBrief) (ts : TechStack),
      generate_tech_stack td brief = Except.ok ts → ts.language ≠ "" := by
  intro td brief ts h
  simp only [generate_tech_stack] at h
  split at h
  · exact absurd h (by simp)
  · have hts := Except.ok.inj h
    have hlang : ts.language =
        if (match td.language with
          | some v => if pyLower v ∈ brief.cannot_use_tech.map pyLower then "" else v
          | none => "") = "" then "Python 3.11+"
        else (match td.language with
          | some v => if pyLower v ∈ brief.cannot_use_tech.map pyLower then "" else v
          | none => "") := by rw [← hts]
    rw [hlang]
    split_ifs with hC
    · decide
    · exact hC

/-- Witness for C9: a template with no language entry still yields the
default language. -/
theorem C9_language_nonempty_witness :
    (TechStack.mk "Python 3.11+" "" "" "pytest" "ruff" "mypy" ""
        "GitHub Actions" [("must_use_0", "Django")]).language ≠ "" :=
  C9_language_nonempty { framework := some "FastAPI" }
    { project_name := "Demo", project_type := "API", primary_goal := "g",
      target_users := "u", timeline := "1 week",
      must_use_tech := ["Django"], cannot_use_tech := ["FastAPI"] }
    _ (by decide)

/-!  Embedding of the plan data model of `claude_planner/models.py` and of
`phase_gen.py`, `task_gen.py`, `subtask_gen.py`, `plan_generator.py`. -/

/-- The `GitStrategy` dataclass. -/
structure GitStrategy where
  branch_name : String
  branch_from : String := "main"
  commit_prefix : String := "feat"
  merge_strategy : String := "squash"
  pr_required : Bool := false
deriving DecidableEq, Repr

/-- The `Subtask` dataclass. -/
structure Subtask where
  id : String
  title : String := ""
  deliverables : List String := []
  prerequisites : List String := []
  files_to_create : List String := []
  files_to_modify : List String := []
  success_criteria : List String := []
  technology_decisions : List String := []
  status : String := "pending"
  completion_notes : List (String × String) := []
deriving DecidableEq, Repr

/-- The `Task` dataclass. -/
structure Task where
  id : String
  title : String := ""
  description : String := ""
  git_strategy : Option GitStrategy := none
  subtasks : List Subtask := []
deriving DecidableEq, Repr

/-- The `Phase` dataclass. -/
structure Phase where
  id : String
  title : String
  goal : String
  days : String := ""
  description : String := ""
  tasks : List Task := []
deriving DecidableEq, Repr

/-- The `DevelopmentPlan` dataclass. -/
structure DevelopmentPlan where
  project_name : String
  phases : List Phase := []
  tech_stack : Option TechStack := none
deriving DecidableEq, Repr

/-- Embedding of `generate_phases(brief)` given the template's
`default_phases` list (the template lookup is a file read, modelled by the
explicit argument). -/
def generate_phases (default_phase_names : List String) : List Phase :=
  let names :=
    if default_phase_names.isEmpty ∨ default_phase_names.head? ≠ some "Foundation" then
      "Foundation" :: default_phase_names.filter (fun name => name ≠ "Foundation")
    else default_phase_names
  names.enum.map fun iname =>
    { id := toString iname.1
      title := iname.2
      goal := "Complete " ++ pyLower iname.2 ++ " phase"
      days := ""
      description := ""
      tasks := [] }

/-- Reference phase table following the specification's words: force a
leading `"Foundation"` (removing any other occurrence, preserving the rest)
unless the list already starts with it, then pair sequential string ids
and the derived goal with each title. -/
def specPhaseTable (names : List String) : List (String × String × String) :=
  let adjusted :=
    if names.head? = some "Foundation" then names
    else "Foundation" :: names.filter (fun name => name ≠ "Foundation")
  (List.range adjusted.length).zip
    (adjusted.map fun n => (n, "Complete " ++ pyLower n ++ " phase"))
    |>.map fun p => (toString p.1, p.2)

/-- Embedding of `generate_tasks(brief, phases)`: one empty task list per
phase id. -/
def generate_tasks (phases : List Phase) : List (String × List Task) :=
  phases.map fun p => (p.id, [])

/-- Embedding of `generate_subtasks(brief, tasks_by_phase)`: one empty
subtask list per task id, keyed by phase id. -/
def generate_subtasks (tasks_by_phase : List (String × List Task)) :
    List (String × List (String × List Subtask)) :=
  tasks_by_phase.map fun pt => (pt.1, pt.2.map fun t => (t.id, []))

/-- Embedding of `_validate_plan_structure(plan)`. -/
def validate_plan_structure (plan : DevelopmentPlan) : List String :=
  (if pyStrip plan.project_name = "" then ["Project name is required"] else []) ++
  (if plan.phases.isEmpty then ["Plan must have at least one phase"] else []) ++
  (match plan.phases with
   | [] => []
   | phase0 :: _ =>
     (if phase0.id ≠ "0" then ["First phase must have ID '0'"] else []) ++
     (if strContains phase0.title "Foundation" = false then
       ["Phase 0 should be titled 'Foundation'"] else [])) ++
  (match plan.tech_stack with
   | none => ["Plan must have a tech stack"]
   | some _ => [])

/-- Embedding of `generate_plan(brief)` given the template's tech-stack
defaults and phase-name list. -/
def generate_plan (td : TemplateDefaults) (default_phase_names : List String)
    (brief : ProjectBrief) : Except String DevelopmentPlan := do
  let tech_stack ← generate_tech_stack td brief
  let phases := generate_phases default_phase_names
  let tasks_by_phase := generate_tasks phases
  let _subtasks := generate_subtasks tasks_by_phase
  let plan : DevelopmentPlan :=
    { project_name := brief.project_name
      phases := phases
      tech_stack := some tech_stack }
  let validation_errors := validate_plan_structure plan
  if validation_errors.isEmpty then Except.ok plan
  else Except.error ("Plan validation failed:\n" ++ joinNl validation_errors)

theorem phaseTable_eq (l : List String) :
    ((l.enum.map fun iname => Phase.mk (toString iname.1) iname.2
        ("Complete " ++ pyLower iname.2 ++ " phase") "" "" []).map
      fun p => (p.id, p.title, p.goal)) =
    (((List.range l.length).zip
        (l.map fun n => (n, "Complete " ++ pyLower n ++ " phase"))).map
      fun p => (toString p.1, p.2)) := by
  rw [List.enum_eq_zip_range, List.zip_map_right, List.map_map, List.map_map]
  refine List.map_congr_left ?_
  intro a _
  rfl

/-- C6: phase derivation maps the template's ordered default-phase-name
list to phases with sequential string ids in list order and the derived
goal text, forcing a leading Foundation phase (and removing any other
occurrence of it, preserving the rest) when the list is absent or does not
already start with exactly "Foundation".  Stated as agreement with the
reference table `specPhaseTable` plus the claim's concrete scenario. -/
theorem C6_phase_derivation :
    (∀ names, (generate_phases names).map (fun p => (p.id, p.title, p.goal)) =
      specPhaseTable names) ∧
    (generate_phases ["Data Models", "Foundation", "API Endpoints"]).map
        (fun p => (p.id, p.title)) =
      [("0", "Foundation"), ("1", "Data Models"), ("2", "API Endpoints")] := by
  constructor
  · intro names
    by_cases hF : names.head? = some "Foundation"
    · have hc : ¬(names.isEmpty = true ∨ ¬names.head? = some "Foundation") := by
        cases names with
        | nil => simp at hF
        | cons a t => simp_all
      unfold generate_phases specPhaseTable
      rw [if_neg hc, if_pos hF]
      exact phaseTable_eq names
    · have hc : names.isEmpty = true ∨ ¬names.head? = some "Foundation" := Or.inr hF
      unfold generate_phases specPhaseTable
      rw [if_pos hc, if_neg hF]
      exact phaseTable_eq _
  · decide

theorem generate_phases_head (names : List String) :
    (generate_phases names).head?.map (fun p => (p.id, p.title)) =
      some ("0", "Foundation") := by
  unfold generate_phases
  by_cases h : names.isEmpty = true ∨ ¬names.head? = some "Foundation"
  · rw [if_pos h]
    rfl
  · rw [if_neg h]
    push_neg at h
    cases names with
    | nil => simp at h
    | cons a t =>
      have ha : a = "Foundation" := by simpa using h.2
      subst ha
      rfl

/-- C10: for every Brief with a non-blank project name and disjoint
lowercased must-use and cannot-use technology lists, `generate_plan`
returns a plan without raising: the top-level validation branches are
unreachable because `generate_phases` always emits phase "0" titled
"Foundation" first and `generate_tech_stack` always returns a stack. -/
theorem C10_generate_plan_total :
    ∀ (td : TemplateDefaults) (names : List String) (brief : ProjectBrief),
      pyStrip brief.project_name ≠ "" →
      (∀ t, t ∈ brief.must_use_tech →
        pyLower t ∉ brief.cannot_use_tech.map pyLower) →
      ∃ plan, generate_plan td names brief = Except.ok plan := by
  intro td names brief hname hdisj
  have hfil : ((brief.must_use_tech.map pyLower).filter
      fun x => x ∈ brief.cannot_use_tech.map pyLower) = [] := by
    rw [List.filter_eq_nil_iff]
    intro a ha
    obtain ⟨t, htm, rfl⟩ := List.mem_map.mp ha
    simpa using hdisj t htm
  obtain ⟨ts, hts⟩ : ∃ ts, generate_tech_stack td brief = Except.ok ts := by
    simp only [generate_tech_stack, hfil, List.dedup_nil, List.isEmpty_nil]
    rw [if_neg (fun h => h trivial)]
    exact ⟨_, rfl⟩
  have hhead := generate_phases_head names
  obtain ⟨p0, rest, hph⟩ : ∃ p0 rest, generate_phases names = p0 :: rest := by
    cases hg : generate_phases names with
    | nil => rw [hg] at hhead; simp at hhead
    | cons a r => exact ⟨a, r, rfl⟩
  rw [hph] at hhead
  simp only [List.head?_cons, Option.map_some'] at hhead
  have hp0 := Prod.mk.inj (Option.some.inj hhead)
  have herr : validate_plan_structure
      { project_name := brief.project_name
        phases := generate_phases names
        tech_stack := some ts } = [] := by
    unfold validate_plan_structure
    rw [hph]
    have hsc : strContains "Foundation" "Foundation" = true := by decide
    simp [hname, hp0.1, hp0.2, hsc]
  refine ⟨DevelopmentPlan.mk brief.project_name (generate_phases names) (some ts), ?_⟩
  simp only [generate_plan, hts, Bind.bind, Except.bind, herr, List.isEmpty_nil]
  exact if_pos trivial

/-- Witness for C10: a Brief with project name Demo and no technology
constraints yields a plan. -/
theorem C10_generate_plan_total_witness :
    ∃ plan, generate_plan {} []
        { project_name := "Demo", project_type := "API", primary_goal := "g",
          target_users := "u", timeline := "1 week" }
      = Except.ok plan :=
  C10_generate_plan_total {} []
    { project_name := "Demo", project_type := "API", primary_goal := "g",
      target_users := "u", timeline := "1 week" }
    (by decide) (fun t ht => absurd ht (by simp))

/-!  Embedding of `DevelopmentPlan.validate_circular_dependencies`. -/

/-- All subtasks of a plan in phase, task, subtask order. -/
def plan_subtasks (plan : DevelopmentPlan) : List Subtask :=
  plan.phases.flatMap fun ph => ph.tasks.flatMap fun t => t.subtasks

/-- Ordered-dict assignment for an arbitrary value type. -/
def upsertL {α : Type} : List (String × α) → String → α → List (String × α)
  | [], k, v => [(k, v)]
  | (k', v') :: rest, k, v =>
    if k' = k then (k, v) :: rest else (k', v') :: upsertL rest k v

/-- The prerequisite graph `prereq_graph[subtask.id] = subtask.prerequisites`
built over all subtasks. -/
def buildPrereqGraph (plan : DevelopmentPlan) : List (String × List String) :=
  (plan_subtasks plan).foldl (fun g st => upsertL g st.id st.prerequisites) []

/-- `prereq_graph.get(node, [])`. -/
def neighbors (g : List (String × List String)) (n : String) : List String :=
  ((g.find? fun p => p.1 = n).map Prod.snd).getD []

/-- The two mutated sets of the detector. -/
structure DfsState where
  visited : List String
  recStack : List String
deriving DecidableEq, Repr

/-- The recursive `has_cycle` function together with its neighbour loop,
fuel-indexed: `Sum.inl node` is a call `has_cycle(node)` (which marks the
node visited and on the recursion stack, walks its neighbour list, and on
a cycle-free return removes the node from the recursion stack — an early
`True` return skips that removal, as in the source), and `Sum.inr ns` is
the remainder of a neighbour loop (an unvisited neighbour is recursed
into; a visited neighbour still on the recursion stack returns `True`). -/
def dfsM (g : List (String × List String)) :
    Nat → String ⊕ List String → DfsState → Bool × DfsState
  | 0, _, s => (false, s)
  | Nat.succ f, Sum.inl node, s =>
    match dfsM g f (Sum.inr (neighbors g node))
        ⟨node :: s.visited, node :: s.recStack⟩ with
    | (true, s2) => (true, s2)
    | (false, s2) => (false, ⟨s2.visited, s2.recStack.erase node⟩)
  | Nat.succ _, Sum.inr [], s => (false, s)
  | Nat.succ f, Sum.inr (n :: ns), s =>
    if n ∈ s.visited then
      if n ∈ s.recStack then (true, s) else dfsM g f (Sum.inr ns) s
    else
      match dfsM g f (Sum.inl n) s with
      | (true, s') => (true, s')
      | (false, s') => dfsM g f (Sum.inr ns) s'

/-- Every node name occurring in the graph, keys and neighbours. -/
def nodesOf (g : List (String × List String)) : List String :=
  g.flatMap fun p => p.1 :: p.2

/-- A fuel bound exceeding the recursion depth of any `has_cycle` call:
one more than the weighted size of the graph. -/
def fuelFor (g : List (String × List String)) : Nat :=
  (((nodesOf g).dedup).map fun n => 2 + (neighbors g n).length).sum + 1

/-- The error message appended for a cycle found from a start node. -/
def cycleMsg (id : String) : String :=
  "Circular dependency detected involving subtask " ++ id

/-- The outer `for subtask_id in prereq_graph` loop, threading the shared
`visited` and `rec_stack` sets. -/
def outerLoop (g : List (String × List String)) :
    List String → DfsState → List String × DfsState
  | [], s => ([], s)
  | k :: ks, s =>
    if k ∈ s.visited then outerLoop g ks s
    else
      match dfsM g (fuelFor g) (Sum.inl k) s with
      | (true, s') =>
        let r := outerLoop g ks s'
        (cycleMsg k :: r.1, r.2)
      | (false, s') => outerLoop g ks s'

/-- Embedding of `validate_circular_dependencies(plan)`. -/
def validate_circular_dependencies (plan : DevelopmentPlan) : List String :=
  (outerLoop (buildPrereqGraph plan) ((buildPrereqGraph plan).map Prod.fst)
    ⟨[], []⟩).1

/-- Edge relation of the prerequisite graph: a subtask points at each of
its prerequisites. -/
def Edge (g : List (String × List String)) (a b : String) : Prop :=
  b ∈ neighbors g a

instance (g : List (String × List String)) (a b : String) :
    Decidable (Edge g a b) :=
  inferInstanceAs (Decidable (b ∈ neighbors g a))

/-- The prerequisite graph contains a directed cycle: a closed nonempty
edge walk from some node back to itself. -/
def CycleExists (g : List (String × List String)) : Prop :=
  ∃ (n : String) (l : List String), List.Chain (Edge g) n (l ++ [n])

theorem dfsM_inr_nil (g : List (String × List String)) (f : Nat) (s : DfsState) :
    dfsM g f (Sum.inr []) s = (false, s) := by
  cases f <;> rfl

/-- On a `False` return, both the node call and the neighbour loop restore
the recursion stack and only grow the visited set. -/
theorem dfs_pres (g : List (String × List String)) : ∀ f : Nat,
    (∀ n s s', dfsM g f (Sum.inl n) s = (false, s') →
      s'.recStack = s.recStack ∧ ∀ x ∈ s.visited, x ∈ s'.visited) ∧
    (∀ ns s s', dfsM g f (Sum.inr ns) s = (false, s') →
      s'.recStack = s.recStack ∧ ∀ x ∈ s.visited, x ∈ s'.visited) := by
  intro f
  induction f with
  | zero =>
    constructor
    · intro n s s' h
      have hss : s = s' := by simpa [dfsM] using h
      subst hss
      exact ⟨rfl, fun x hx => hx⟩
    · intro ns s s' h
      have hss : s = s' := by simpa [dfsM] using h
      subst hss
      exact ⟨rfl, fun x hx => hx⟩
  | succ f ih =>
    constructor
    · intro n s s' h
      simp only [dfsM] at h
      cases hin : dfsM g f (Sum.inr (neighbors g n))
          ⟨n :: s.visited, n :: s.recStack⟩ with
      | mk bi si =>
        rw [hin] at h
        cases bi with
        | true => simp at h
        | false =>
          obtain ⟨hrec, hvis⟩ := (ih.2 _ _ _ hin)
          simp only [Prod.mk.injEq] at h
          rw [← h.2]
          constructor
          · simp only [hrec]
            exact List.erase_cons_head n s.recStack
          · intro x hx
            exact hvis x (List.mem_cons_of_mem n hx)
    · intro ns s s' h
      cases ns with
      | nil =>
        rw [dfsM_inr_nil] at h
        obtain ⟨-, h2⟩ := Prod.mk.inj h
        subst h2
        exact ⟨rfl, fun x hx => hx⟩
      | cons n rest =>
        simp only [dfsM] at h
        by_cases hv : n ∈ s.visited
        · rw [if_pos hv] at h
          by_cases hr : n ∈ s.recStack
          · rw [if_pos hr] at h
            simp at h
          · rw [if_neg hr] at h
            exact ih.2 rest s s' h
        · rw [if_neg hv] at h
          cases hin : dfsM g f (Sum.inl n) s with
          | mk bi si =>
            rw [hin] at h
            cases bi with
            | true => simp at h
            | false =>
              obtain ⟨hrec1, hvis1⟩ := ih.1 _ _ _ hin
              obtain ⟨hrec2, hvis2⟩ := ih.2 _ _ _ h
              exact ⟨hrec2.trans hrec1, fun x hx => hvis2 x (hvis1 x hx)⟩

/-- The recursion stack always forms a reversed edge path: each entry has
an edge to the entry pushed after it. -/
def StackPath (g : List (String × List String)) (rs : List String) : Prop :=
  List.Chain' (fun a b => Edge g b a) rs

theorem stack_reach (g : List (String × List String)) :
    ∀ (tl : List String) (hd : String),
      StackPath g (hd :: tl) → ∀ n ∈ hd :: tl,
        n = hd ∨ ∃ l, List.Chain (Edge g) n (l ++ [hd]) := by
  intro tl
  induction tl with
  | nil =>
    intro hd _ n hn
    exact Or.inl (by simpa using hn)
  | cons b t ih =>
    intro hd hchain n hn
    have hsplit := List.chain'_cons.mp hchain
    rcases List.mem_cons.mp hn with rfl | hn2
    · exact Or.inl rfl
    · rcases ih b hsplit.2 n hn2 with rfl | ⟨l, hc⟩
      · refine Or.inr ⟨[], ?_⟩
        simpa [List.chain_singleton] using hsplit.1
      · refine Or.inr ⟨l ++ [b], ?_⟩
        have : l ++ [b] ++ [hd] = l ++ b :: [hd] := by simp
        rw [this, List.chain_split]
        exact ⟨hc, List.chain_singleton.mpr hsplit.1⟩

theorem stack_cycle (g : List (String × List String)) (hd : String)
    (tl : List String) (hchain : StackPath g (hd :: tl)) (n : String)
    (hn : n ∈ hd :: tl) (he : Edge g hd n) : CycleExists g := by
  rcases stack_reach g tl hd hchain n hn with rfl | ⟨l, hc⟩
  · exact ⟨n, [], List.chain_singleton.mpr he⟩
  · refine ⟨n, l ++ [hd], ?_⟩
    have : l ++ [hd] ++ [n] = l ++ hd :: [n] := by simp
    rw [this, List.chain_split]
    exact ⟨hc, List.chain_singleton.mpr he⟩

/-- A `True` return of `has_cycle` from a coherent state means the graph
really has a cycle. -/
theorem dfs_sound (g : List (String × List String)) : ∀ f : Nat,
    (∀ n s s', (∀ x ∈ s.recStack, x ∈ s.visited) → StackPath g s.recStack →
      (s.recStack = [] ∨ ∃ hd tl, s.recStack = hd :: tl ∧ Edge g hd n) →
      dfsM g f (Sum.inl n) s = (true, s') → CycleExists g) ∧
    (∀ ns s s', (∀ x ∈ s.recStack, x ∈ s.visited) → StackPath g s.recStack →
      (∃ hd tl, s.recStack = hd :: tl ∧ ∀ m ∈ ns, Edge g hd m) →
      dfsM g f (Sum.inr ns) s = (true, s') → CycleExists g) := by
  intro f
  induction f with
  | zero =>
    constructor
    · intro n s s' _ _ _ h
      simp [dfsM] at h
    · intro ns s s' _ _ _ h
      simp [dfsM] at h
  | succ f ih =>
    constructor
    · intro n s s' hsub hpath hext h
      simp only [dfsM] at h
      cases hin : dfsM g f (Sum.inr (neighbors g n))
          ⟨n :: s.visited, n :: s.recStack⟩ with
      | mk bi si =>
        rw [hin] at h
        cases bi with
        | false => simp at h
        | true =>
          refine ih.2 (neighbors g n) ⟨n :: s.visited, n :: s.recStack⟩ si
            ?_ ?_ ?_ hin
          · intro x hx
            rcases List.mem_cons.mp hx with rfl | hx2
            · exact List.mem_cons_self x s.visited
            · exact List.mem_cons_of_mem n (hsub x hx2)
          · show List.Chain' (fun a b => Edge g b a) (n :: s.recStack)
            rcases hext with hnil | ⟨hd, tl, hrs, he⟩
            · rw [hnil]
              exact List.chain'_singleton n
            · rw [hrs]
              rw [hrs] at hpath
              exact List.chain'_cons.mpr ⟨he, hpath⟩
          · exact ⟨n, s.recStack, rfl, fun m hm => hm⟩
    · intro ns s s' hsub hpath hext h
      cases ns with
      | nil =>
        rw [dfsM_inr_nil] at h
        simp at h
      | cons n rest =>
        obtain ⟨hd, tl, hrs, hedge⟩ := hext
        simp only [dfsM] at h
        by_cases hv : n ∈ s.visited
        · rw [if_pos hv] at h
          by_cases hr : n ∈ s.recStack
          · rw [hrs] at hpath hr
            exact stack_cycle g hd tl hpath n hr
              (hedge n (List.mem_cons_self n rest))
          · rw [if_neg hr] at h
            exact ih.2 rest s s' hsub hpath
              ⟨hd, tl, hrs, fun m hm => hedge m (List.mem_cons_of_mem n hm)⟩ h
        · rw [if_neg hv] at h
          cases hin : dfsM g f (Sum.inl n) s with
          | mk bi si =>
            rw [hin] at h
            cases bi with
            | true =>
              exact ih.1 n s si hsub hpath
                (Or.inr ⟨hd, tl, hrs, hedge n (List.mem_cons_self n rest)⟩) hin
            | false =>
              obtain ⟨hrec, hvis⟩ := (dfs_pres g f).1 n s si hin
              refine ih.2 rest si s' ?_ ?_ ?_ h
              · intro x hx
                rw [hrec] at hx
                exact hvis x (hsub x hx)
              · show List.Chain' (fun a b => Edge g b a) si.recStack
                rw [hrec]
                exact hpath
              · exact ⟨hd, tl, by rw [hrec, hrs],
                  fun m hm => hedge m (List.mem_cons_of_mem n hm)⟩

/-- Weighted count of the not-yet-visited nodes; the recursion depth of a
`has_cycle` call is bounded by it. -/
def unseenSum (g : List (String × List String)) (visited : List String) : Nat :=
  ((((nodesOf g).dedup).filter fun n => n ∉ visited).map
    fun n => 2 + (neighbors g n).length).sum

theorem sum_le_of_sublist {l₁ l₂ : List Nat} (h : l₁.Sublist l₂) :
    l₁.sum ≤ l₂.sum := by
  induction h with
  | slnil => exact Nat.le_refl 0
  | cons a _ ih => simpa using Nat.le_trans ih (Nat.le_add_left _ a)
  | cons₂ a _ ih => simpa using ih

theorem unseenSum_mono (g : List (String × List String))
    {v1 v2 : List String} (h : ∀ x ∈ v1, x ∈ v2) :
    unseenSum g v2 ≤ unseenSum g v1 := by
  refine sum_le_of_sublist (List.Sublist.map _ ?_)
  refine List.monotone_filter_right _ ?_
  intro a ha
  simp only [decide_eq_true_eq] at ha ⊢
  exact fun hv1 => ha (h a hv1)

theorem filter_cons_sum (f : String → Nat) (n : String) (visited : List String)
    (hnv : n ∉ visited) :
    ∀ L : List String, L.Nodup → n ∈ L →
      ((L.filter fun x => x ∉ visited).map f).sum =
        ((L.filter fun x => x ∉ n :: visited).map f).sum + f n := by
  intro L
  induction L with
  | nil => intro _ h; cases h
  | cons a rest ih =>
    intro hnd hmem
    obtain ⟨hna, hndr⟩ := List.nodup_cons.mp hnd
    rcases List.mem_cons.mp hmem with rfl | hmr
    · rw [List.filter_cons_of_pos (by simpa using hnv),
        List.filter_cons_of_neg (by simp)]
      have hcong : rest.filter (fun x => x ∉ visited) =
          rest.filter fun x => x ∉ n :: visited := by
        refine List.filter_congr ?_
        intro x hx
        have hxa : x ≠ n := fun he => hna (he ▸ hx)
        simp [List.mem_cons, hxa]
      rw [hcong]
      simp [Nat.add_comm]
    · have hne : a ≠ n := fun he => hna (he ▸ hmr)
      by_cases hav : a ∈ visited
      · rw [List.filter_cons_of_neg (by simpa using hav),
          List.filter_cons_of_neg (by simp [List.mem_cons, hav])]
        exact ih hndr hmr
      · rw [List.filter_cons_of_pos (by simpa using hav),
          List.filter_cons_of_pos (by simp [List.mem_cons, hav, hne])]
        simp only [List.map_cons, List.sum_cons]
        rw [ih hndr hmr, Nat.add_assoc]

theorem unseenSum_drop (g : List (String × List String)) {n : String}
    {visited : List String} (hn : n ∈ nodesOf g) (hnv : n ∉ visited) :
    unseenSum g visited =
      unseenSum g (n :: visited) + (2 + (neighbors g n).length) := by
  exact filter_cons_sum _ n visited hnv ((nodesOf g).dedup)
    (List.nodup_dedup _) (List.mem_dedup.mpr hn)

theorem fuelFor_ge (g : List (String × List String)) (visited : List String) :
    unseenSum g visited + 1 ≤ fuelFor g := by
  have : unseenSum g visited ≤ unseenSum g [] := unseenSum_mono g (by simp)
  have h2 : unseenSum g [] =
      (((nodesOf g).dedup).map fun n => 2 + (neighbors g n).length).sum := by
    unfold unseenSum
    rw [List.filter_eq_self.mpr (by simp)]
  unfold fuelFor
  omega

theorem neighbors_subset_nodes (g : List (String × List String)) (n m : String)
    (h : m ∈ neighbors g n) : m ∈ nodesOf g := by
  unfold neighbors at h
  cases hf : g.find? fun p => p.1 = n with
  | none => rw [hf] at h; simp at h
  | some q =>
    rw [hf] at h
    simp only [Option.map_some', Option.getD_some] at h
    have hq : q ∈ g := List.mem_of_find?_eq_some hf
    unfold nodesOf
    rw [List.mem_flatMap]
    exact ⟨q, hq, List.mem_cons_of_mem _ h⟩

theorem keys_subset_nodes (g : List (String × List String)) (k : String)
    (h : k ∈ g.map Prod.fst) : k ∈ nodesOf g := by
  obtain ⟨p, hp, rfl⟩ := List.mem_map.mp h
  unfold nodesOf
  rw [List.mem_flatMap]
  exact ⟨p, hp, List.mem_cons_self _ _⟩

theorem edge_src_key (g : List (String × List String)) (a b : String)
    (h : Edge g a b) : a ∈ g.map Prod.fst := by
  unfold Edge neighbors at h
  cases hf : g.find? fun p => p.1 = a with
  | none => rw [hf] at h; simp at h
  | some q =>
    have hq : q ∈ g := List.mem_of_find?_eq_some hf
    have hqa : q.1 = a := by simpa using List.find?_some hf
    rw [← hqa]
    exact List.mem_map_of_mem Prod.fst hq

/-- A node is finished ("black"): visited and no longer on the recursion
stack.  Once black a node is never pushed again, since only unvisited
nodes are pushed. -/
def Black (s : DfsState) (x : String) : Prop :=
  x ∈ s.visited ∧ x ∉ s.recStack

/-- Every neighbour of a finished node is finished. -/
def BlackClosed (g : List (String × List String)) (s : DfsState) : Prop :=
  ∀ x, Black s x → ∀ m ∈ neighbors g x, Black s m

/-- No cycle runs entirely through finished nodes. -/
def BlackAcyclic (g : List (String × List String)) (s : DfsState) : Prop :=
  ¬∃ (n : String) (l : List String), List.Chain (Edge g) n (l ++ [n]) ∧
    Black s n ∧ ∀ x ∈ l, Black s x

theorem chain_black {g : List (String × List String)} {s : DfsState}
    (hcl : BlackClosed g s) :
    ∀ (l : List String) (a : String), Black s a → List.Chain (Edge g) a l →
      ∀ x ∈ l, Black s x := by
  intro l
  induction l with
  | nil => intro a _ _ x hx; cases hx
  | cons b t ih =>
    intro a ha hc x hx
    obtain ⟨hab, hct⟩ := List.chain_cons.mp hc
    have hb : Black s b := hcl a ha b hab
    rcases List.mem_cons.mp hx with rfl | hxt
    · exact hb
    · exact ih b hb hct x hxt

theorem cycle_rotate {α : Type} {R : α → α → Prop} [DecidableEq α]
    (c n : α) (l : List α) (hc : List.Chain R c (l ++ [c])) (hn : n ∈ c :: l) :
    ∃ l', List.Chain R n (l' ++ [n]) ∧ ∀ x ∈ n :: l', x ∈ c :: l := by
  rcases List.mem_cons.mp hn with rfl | hnl
  · exact ⟨l, hc, fun x hx => hx⟩
  · obtain ⟨l₁, l₂, rfl⟩ := List.append_of_mem hnl
    have hsplit : List.Chain R c (l₁ ++ n :: (l₂ ++ [c])) := by
      simpa using hc
    rw [List.chain_split] at hsplit
    refine ⟨l₂ ++ c :: l₁, ?_, ?_⟩
    · have : (l₂ ++ c :: l₁) ++ [n] = l₂ ++ c :: (l₁ ++ [n]) := by simp
      rw [this, List.chain_split]
      exact ⟨hsplit.2, hsplit.1⟩
    · intro x hx
      simp only [List.mem_cons, List.mem_append] at hx ⊢
      tauto

theorem black_mono_of_pres {s s' : DfsState} (hrec : s'.recStack = s.recStack)
    (hvis : ∀ x ∈ s.visited, x ∈ s'.visited) :
    ∀ x, Black s x → Black s' x := by
  intro x hx
  exact ⟨hvis x hx.1, by rw [hrec]; exact hx.2⟩

/-- A `False` run of `has_cycle` from a closed state with enough fuel
finishes its argument and preserves closure and acyclicity of the finished
region: the invariant behind completeness of the cycle check. -/
theorem dfs_complete (g : List (String × List String)) : ∀ f : Nat,
    (∀ n s s', n ∉ s.visited → n ∈ nodesOf g →
      unseenSum g s.visited + 1 ≤ f →
      (∀ x ∈ s.recStack, x ∈ s.visited) →
      BlackClosed g s → BlackAcyclic g s →
      dfsM g f (Sum.inl n) s = (false, s') →
      BlackClosed g s' ∧ BlackAcyclic g s' ∧ Black s' n ∧
        unseenSum g s'.visited + 2 ≤ unseenSum g s.visited) ∧
    (∀ ns s s', (∀ m ∈ ns, m ∈ nodesOf g) →
      unseenSum g s.visited + ns.length + 1 ≤ f →
      (∀ x ∈ s.recStack, x ∈ s.visited) →
      BlackClosed g s → BlackAcyclic g s →
      dfsM g f (Sum.inr ns) s = (false, s') →
      BlackClosed g s' ∧ BlackAcyclic g s' ∧ (∀ m ∈ ns, Black s' m) ∧
        unseenSum g s'.visited ≤ unseenSum g s.visited) := by
  intro f
  induction f with
  | zero =>
    constructor
    · intro n s s' _ _ hfu
      omega
    · intro ns s s' _ hfu
      omega
  | succ f ih =>
    constructor
    · -- the node call
      intro n s s' hnv hnn hfu hsub hcl hac h
      simp only [dfsM] at h
      cases hin : dfsM g f (Sum.inr (neighbors g n))
          ⟨n :: s.visited, n :: s.recStack⟩ with
      | mk bi si =>
        rw [hin] at h
        cases bi with
        | true => simp at h
        | false =>
          have hs' : s' = ⟨si.visited, si.recStack.erase n⟩ :=
            ((Prod.mk.inj h).2).symm
          have hpres := (dfs_pres g f).2 _ _ _ hin
          have hb1 : ∀ x, Black ⟨n :: s.visited, n :: s.recStack⟩ x ↔ Black s x := by
            intro x
            unfold Black
            simp only [List.mem_cons, not_or]
            constructor
            · rintro ⟨h1 | h1, h2⟩
              · exact absurd h1 h2.1
              · exact ⟨h1, h2.2⟩
            · intro hx
              have hxn : x ≠ n := fun he => hnv (he ▸ hx.1)
              exact ⟨Or.inr hx.1, hxn, hx.2⟩
          have hdeg : unseenSum g s.visited =
              unseenSum g (n :: s.visited) + (2 + (neighbors g n).length) :=
            unseenSum_drop g hnn hnv
          obtain ⟨hclsi, hacsi, hblacksi, hphisi⟩ :=
            ih.2 (neighbors g n) ⟨n :: s.visited, n :: s.recStack⟩ si
              (fun m hm => neighbors_subset_nodes g n m hm)
              (by
                show unseenSum g (n :: s.visited) + (neighbors g n).length + 1 ≤ f
                omega)
              (by
                intro x hx
                rcases List.mem_cons.mp hx with rfl | hx2
                · exact List.mem_cons_self x s.visited
                · exact List.mem_cons_of_mem n (hsub x hx2))
              (by
                intro x hx m hm
                exact (hb1 m).mpr (hcl x ((hb1 x).mp hx) m hm))
              (by
                rintro ⟨c, l, hch, hcb, hlb⟩
                exact hac ⟨c, l, hch, (hb1 c).mp hcb,
                  fun x hx => (hb1 x).mp (hlb x hx)⟩)
              hin
          have hrs : si.recStack = n :: s.recStack := hpres.1
          have hers : si.recStack.erase n = s.recStack := by
            rw [hrs]
            exact List.erase_cons_head n s.recStack
          have hnvsi : n ∈ si.visited :=
            hpres.2 n (List.mem_cons_self n s.visited)
          have hnrs : n ∉ s.recStack := fun hc => hnv (hsub n hc)
          have hb2 : ∀ x, Black s' x ↔ (Black si x ∨ x = n) := by
            intro x
            rw [hs']
            unfold Black
            simp only [hers]
            constructor
            · intro hx
              by_cases hxn : x = n
              · exact Or.inr hxn
              · refine Or.inl ⟨hx.1, ?_⟩
                rw [hrs]
                simp only [List.mem_cons, not_or]
                exact ⟨hxn, hx.2⟩
            · rintro (hx | rfl)
              · refine ⟨hx.1, ?_⟩
                have := hx.2
                rw [hrs] at this
                simp only [List.mem_cons, not_or] at this
                exact this.2
              · exact ⟨hnvsi, hnrs⟩
          refine ⟨?_, ?_, (hb2 n).mpr (Or.inr rfl), ?_⟩
          · intro x hx m hm
            rcases (hb2 x).mp hx with hbx | rfl
            · exact (hb2 m).mpr (Or.inl (hclsi x hbx m hm))
            · exact (hb2 m).mpr (Or.inl (hblacksi m hm))
          · rintro ⟨c, l, hch, hcb, hlb⟩
            by_cases hall : Black si c ∧ ∀ x ∈ l, Black si x
            · exact hacsi ⟨c, l, hch, hall.1, hall.2⟩
            · have hnin : n ∈ c :: l := by
                by_contra hni
                refine hall ⟨?_, ?_⟩
                · rcases (hb2 c).mp hcb with hb | rfl
                  · exact hb
                  · exact absurd (List.mem_cons_self c l) hni
                · intro x hx
                  rcases (hb2 x).mp (hlb x hx) with hb | rfl
                  · exact hb
                  · exact absurd (List.mem_cons_of_mem c hx) hni
              obtain ⟨l', hch', hsubl⟩ := cycle_rotate c n l hch hnin
              have hbl : ∀ x ∈ n :: l', Black s' x := by
                intro x hx
                rcases List.mem_cons.mp (hsubl x hx) with rfl | hxl
                · exact hcb
                · exact hlb x hxl
              cases l' with
              | nil =>
                have hEnn : Edge g n n := by
                  simpa [List.chain_singleton] using hch'
                have hbn : Black si n := hblacksi n hEnn
                have := hbn.2
                rw [hrs] at this
                exact this (List.mem_cons_self n s.recStack)
              | cons m rest' =>
                have hch2 : List.Chain (Edge g) n (m :: (rest' ++ [n])) := by
                  simpa using hch'
                obtain ⟨hEnm, hcm⟩ := List.chain_cons.mp hch2
                have hbm : Black si m := hblacksi m hEnm
                have hbn : Black si n :=
                  chain_black hclsi (rest' ++ [n]) m hbm hcm n (by simp)
                have := hbn.2
                rw [hrs] at this
                exact this (List.mem_cons_self n s.recStack)
          · have hphisi' : unseenSum g si.visited ≤
                unseenSum g (n :: s.visited) := hphisi
            rw [hs']
            show unseenSum g si.visited + 2 ≤ unseenSum g s.visited
            omega
    · -- the neighbour loop
      intro ns s s' hns hfu hsub hcl hac h
      cases ns with
      | nil =>
        rw [dfsM_inr_nil] at h
        have hss : s = s' := (Prod.mk.inj h).2
        subst hss
        exact ⟨hcl, hac, fun m hm => absurd hm (List.not_mem_nil m),
          Nat.le_refl _⟩
      | cons n rest =>
        simp only [dfsM] at h
        by_cases hv : n ∈ s.visited
        · rw [if_pos hv] at h
          by_cases hr : n ∈ s.recStack
          · rw [if_pos hr] at h
            simp at h
          · rw [if_neg hr] at h
            have hpres := (dfs_pres g f).2 _ _ _ h
            obtain ⟨hcls', hacs', hbrest, hphi⟩ :=
              ih.2 rest s s' (fun m hm => hns m (List.mem_cons_of_mem n hm))
                (by simp only [List.length_cons] at hfu; omega)
                hsub hcl hac h
            refine ⟨hcls', hacs', ?_, hphi⟩
            intro m hm
            rcases List.mem_cons.mp hm with rfl | hm2
            · exact black_mono_of_pres hpres.1 hpres.2 m ⟨hv, hr⟩
            · exact hbrest m hm2
        · rw [if_neg hv] at h
          cases hin : dfsM g f (Sum.inl n) s with
          | mk bi si =>
            rw [hin] at h
            cases bi with
            | true => simp at h
            | false =>
              have hpres1 := (dfs_pres g f).1 _ _ _ hin
              obtain ⟨hclsi, hacsi, hbn, hphi1⟩ :=
                ih.1 n s si hv (hns n (List.mem_cons_self n rest))
                  (by simp only [List.length_cons] at hfu; omega)
                  hsub hcl hac hin
              have hpres2 := (dfs_pres g f).2 _ _ _ h
              obtain ⟨hcls', hacs', hbrest, hphi2⟩ :=
                ih.2 rest si s' (fun m hm => hns m (List.mem_cons_of_mem n hm))
                  (by simp only [List.length_cons] at hfu; omega)
                  (by
                    intro x hx
                    rw [hpres1.1] at hx
                    exact hpres1.2 x (hsub x hx))
                  hclsi hacsi h
              refine ⟨hcls', hacs', ?_, by omega⟩
              intro m hm
              rcases List.mem_cons.mp hm with rfl | hm2
              · exact black_mono_of_pres hpres2.1 hpres2.2 m hbn
              · exact hbrest m hm2

theorem outer_no_cycle (g : List (String × List String))
    (hnc : ¬CycleExists g) : ∀ (ks : List String) (s : DfsState),
      s.recStack = [] →
      (outerLoop g ks s).1 = [] ∧ (outerLoop g ks s).2.recStack = [] := by
  intro ks
  induction ks with
  | nil =>
    intro s hrs
    exact ⟨rfl, hrs⟩
  | cons k ks ih =>
    intro s hrs
    simp only [outerLoop]
    by_cases hv : k ∈ s.visited
    · rw [if_pos hv]
      exact ih s hrs
    · rw [if_neg hv]
      cases hin : dfsM g (fuelFor g) (Sum.inl k) s with
      | mk bi si =>
        cases bi with
        | true =>
          exact absurd (dfs_sound g (fuelFor g) |>.1 k s si
            (by rw [hrs]; intro x hx; cases hx)
            (by rw [hrs]; exact List.chain'_nil)
            (Or.inl hrs) hin) hnc
        | false =>
          have hpres := (dfs_pres g (fuelFor g)).1 _ _ _ hin
          exact ih si (by rw [hpres.1, hrs])

theorem outer_all_false (g : List (String × List String)) :
    ∀ (ks : List String) (s : DfsState),
      (∀ k ∈ ks, k ∈ g.map Prod.fst) → s.recStack = [] →
      BlackClosed g s → BlackAcyclic g s →
      (outerLoop g ks s).1 = [] →
      BlackClosed g (outerLoop g ks s).2 ∧
        BlackAcyclic g (outerLoop g ks s).2 ∧
        (outerLoop g ks s).2.recStack = [] ∧
        (∀ k ∈ ks, k ∈ (outerLoop g ks s).2.visited) ∧
        (∀ x ∈ s.visited, x ∈ (outerLoop g ks s).2.visited) := by
  intro ks
  induction ks with
  | nil =>
    intro s _ hrs hcl hac _
    exact ⟨hcl, hac, hrs, fun k hk => absurd hk (List.not_mem_nil k),
      fun x hx => hx⟩
  | cons k ks ih =>
    intro s hks hrs hcl hac hres
    simp only [outerLoop] at hres ⊢
    by_cases hv : k ∈ s.visited
    · rw [if_pos hv] at hres ⊢
      obtain ⟨h1, h2, h3, h4, h5⟩ :=
        ih s (fun x hx => hks x (List.mem_cons_of_mem k hx)) hrs hcl hac hres
      refine ⟨h1, h2, h3, ?_, h5⟩
      intro x hx
      rcases List.mem_cons.mp hx with rfl | hx2
      · exact h5 x hv
      · exact h4 x hx2
    · rw [if_neg hv] at hres ⊢
      cases hin : dfsM g (fuelFor g) (Sum.inl k) s with
      | mk bi si =>
        rw [hin] at hres
        cases bi with
        | true => simp at hres
        | false =>
          have hpres := (dfs_pres g (fuelFor g)).1 _ _ _ hin
          obtain ⟨hclsi, hacsi, hbk, _⟩ :=
            (dfs_complete g (fuelFor g)).1 k s si hv
              (keys_subset_nodes g k (hks k (List.mem_cons_self k ks)))
              (fuelFor_ge g s.visited)
              (by rw [hrs]; intro x hx; cases hx)
              hcl hac hin
          obtain ⟨h1, h2, h3, h4, h5⟩ :=
            ih si (fun x hx => hks x (List.mem_cons_of_mem k hx))
              (by rw [hpres.1, hrs]) hclsi hacsi hres
          refine ⟨h1, h2, h3, ?_, ?_⟩
          · intro x hx
            rcases List.mem_cons.mp hx with rfl | hx2
            · exact h5 x hbk.1
            · exact h4 x hx2
          · intro x hx
            exact h5 x (hpres.2 x hx)

theorem chain_closed_out {α : Type} {R : α → α → Prop} :
    ∀ (l : List α) (a c : α), List.Chain R a (l ++ [c]) →
      ∀ x ∈ a :: l, ∃ y, R x y := by
  intro l
  induction l with
  | nil =>
    intro a c hch x hx
    have hxa : x = a := by simpa using hx
    subst hxa
    exact ⟨c, (List.chain_singleton.mp (by simpa using hch))⟩
  | cons b t ih =>
    intro a c hch x hx
    obtain ⟨hab, hbt⟩ := List.chain_cons.mp (by simpa using hch)
    rcases List.mem_cons.mp hx with rfl | hx2
    · exact ⟨b, hab⟩
    · exact ih b c hbt x hx2

theorem cycleMsg_inj {a b : String} (h : cycleMsg a = cycleMsg b) : a = b := by
  unfold cycleMsg at h
  have hd := congrArg String.data h
  simp only [String.data_append] at hd
  have hab := List.append_cancel_left hd
  cases a with
  | mk la =>
    cases b with
    | mk lb => exact congrArg String.mk hab

theorem dfsM_inl_no_neighbors (g : List (String × List String)) (id : String)
    (hid : neighbors g id = []) (f : Nat) (s : DfsState) :
    dfsM g (f + 1) (Sum.inl id) s =
      (false, ⟨id :: s.visited, (id :: s.recStack).erase id⟩) := by
  simp only [dfsM, hid, dfsM_inr_nil]

theorem outer_no_prereq_no_msg (g : List (String × List String)) (id : String)
    (hid : neighbors g id = []) : ∀ (ks : List String) (s : DfsState),
      cycleMsg id ∉ (outerLoop g ks s).1 := by
  intro ks
  induction ks with
  | nil =>
    intro s h
    exact absurd h (List.not_mem_nil _)
  | cons k ks ih =>
    intro s h
    simp only [outerLoop] at h
    by_cases hv : k ∈ s.visited
    · rw [if_pos hv] at h
      exact ih s h
    · rw [if_neg hv] at h
      cases hin : dfsM g (fuelFor g) (Sum.inl k) s with
      | mk bi si =>
        rw [hin] at h
        cases bi with
        | true =>
          rcases List.mem_cons.mp h with heq | htail
          · have hki : id = k := cycleMsg_inj heq
            subst hki
            obtain ⟨f', hf'⟩ : ∃ f', fuelFor g = f' + 1 := ⟨_, rfl⟩
            rw [hf', dfsM_inl_no_neighbors g id hid f' s] at hin
            exact absurd (Prod.mk.inj hin).1.symm (by simp)
          · exact ih si htail
        | false => exact ih si h

/-- C3: `validate_circular_dependencies` reports no error exactly when the
prerequisite graph is acyclic — so any plan with a cycle (in any
component, the outer loop starts a search from every subtask id) yields at
least one error and any acyclic plan yields none — and a subtask id with
no prerequisites never contributes an error of its own, whatever the other
components contain. -/
theorem C3_cycle_detection (plan : DevelopmentPlan) :
    (validate_circular_dependencies plan = [] ↔
      ¬CycleExists (buildPrereqGraph plan)) ∧
    (∀ id, neighbors (buildPrereqGraph plan) id = [] →
      cycleMsg id ∉ validate_circular_dependencies plan) := by
  constructor
  · constructor
    · intro hres
      obtain ⟨_, h2, h3, h4, _⟩ :=
        outer_all_false (buildPrereqGraph plan)
          ((buildPrereqGraph plan).map Prod.fst) ⟨[], []⟩
          (fun k hk => hk) rfl
          (fun x hx _ _ => absurd hx.1 (List.not_mem_nil x))
          (by rintro ⟨c, l, _, hcb, _⟩; exact absurd hcb.1 (List.not_mem_nil c))
          hres
      rintro ⟨c, l, hch⟩
      have hsrc := chain_closed_out l c c hch
      have hblack : ∀ x ∈ c :: l,
          Black (outerLoop (buildPrereqGraph plan)
            ((buildPrereqGraph plan).map Prod.fst) ⟨[], []⟩).2 x := by
        intro x hx
        obtain ⟨y, hy⟩ := hsrc x hx
        refine ⟨h4 x (edge_src_key _ x y hy), ?_⟩
        rw [h3]
        exact List.not_mem_nil x
      exact h2 ⟨c, l, hch, hblack c (List.mem_cons_self c l),
        fun x hx => hblack x (List.mem_cons_of_mem c hx)⟩
    · intro hnc
      exact (outer_no_cycle (buildPrereqGraph plan) hnc
        ((buildPrereqGraph plan).map Prod.fst) ⟨[], []⟩ rfl).1
  · intro id hid
    exact outer_no_prereq_no_msg (buildPrereqGraph plan) id hid
      ((buildPrereqGraph plan).map Prod.fst) ⟨[], []⟩

/-- Witness for C3: a three-subtask chain has no cycle; a plan with a
two-subtask cycle and an isolated prerequisite-free subtask reports an
error, but never one naming the isolated subtask. -/
theorem C3_cycle_detection_witness :
    ¬CycleExists (buildPrereqGraph (DevelopmentPlan.mk "T"
      [Phase.mk "0" "Foundation" "g" "" ""
        [Task.mk "0.1" "" "" none
          [{ id := "0.1.1", prerequisites := ["0.1.2"] },
           { id := "0.1.2", prerequisites := ["0.1.3"] },
           { id := "0.1.3" }]]] none)) ∧
    cycleMsg "0.1.3" ∉ validate_circular_dependencies (DevelopmentPlan.mk "T"
      [Phase.mk "0" "Foundation" "g" "" ""
        [Task.mk "0.1" "" "" none
          [{ id := "0.1.1", prerequisites := ["0.1.2"] },
           { id := "0.1.2", prerequisites := ["0.1.1"] },
           { id := "0.1.3" }]]] none) ∧
    validate_circular_dependencies (DevelopmentPlan.mk "T"
      [Phase.mk "0" "Foundation" "g" "" ""
        [Task.mk "0.1" "" "" none
          [{ id := "0.1.1", prerequisites := ["0.1.2"] },
           { id := "0.1.2", prerequisites := ["0.1.1"] },
           { id := "0.1.3" }]]] none) ≠ [] := by
  refine ⟨?_, ?_, ?_⟩
  · exact (C3_cycle_detection (DevelopmentPlan.mk "T"
      [Phase.mk "0" "Foundation" "g" "" ""
        [Task.mk "0.1" "" "" none
          [{ id := "0.1.1", prerequisites := ["0.1.2"] },
           { id := "0.1.2", prerequisites := ["0.1.3"] },
           { id := "0.1.3" }]]] none)).1.mp (by decide)
  · exact (C3_cycle_detection (DevelopmentPlan.mk "T"
      [Phase.mk "0" "Foundation" "g" "" ""
        [Task.mk "0.1" "" "" none
          [{ id := "0.1.1", prerequisites := ["0.1.2"] },
           { id := "0.1.2", prerequisites := ["0.1.1"] },
           { id := "0.1.3" }]]] none)).2 "0.1.3" (by decide)
  · intro hnil
    exact (C3_cycle_detection (DevelopmentPlan.mk "T"
      [Phase.mk "0" "Foundation" "g" "" ""
        [Task.mk "0.1" "" "" none
          [{ id := "0.1.1", prerequisites := ["0.1.2"] },
           { id := "0.1.2", prerequisites := ["0.1.1"] },
           { id := "0.1.3" }]]] none)).1.mp hnil
      ⟨"0.1.1", ["0.1.2"],
        List.Chain.cons (by decide) (List.Chain.cons (by decide) List.Chain.nil)⟩

end DevPlan


